import Mathlib

/-!
Verification of the MemeHub storage abstraction and media-lifecycle layer.

This file gives a shallow embedding of the relevant parts of the source:

* `server/routes.ts` — `extractCloudinaryPublicId` and the route handlers for
  listing, creating, deleting, renaming, community-editing and moderating memes;
* `server/storage.ts` — the `MongoStorage` and `MemStorage` backends.

Strings are modelled as `List Char` (named `Str`), JavaScript string
operations (`includes`, `split`, `lastIndexOf`/`substring`, the
`^v\d+/` regexp replace, `trim`) are implemented below with JS semantics,
dates are modelled as natural-number timestamps, and the two store backends
are modelled as functions on an explicit list of documents kept in insertion
order.  MongoDB query semantics are modelled for the operations the code
uses: `$regex`-with-`i` matching is kept abstract (a matcher parameter,
assumed to agree with case-insensitive substring containment only on
metacharacter-free patterns), `.limit(0)` means no limit, `updateOne`'s
`modifiedCount` counts documents whose stored value actually changed, and
`.sort()` is modelled as a stable sort on the document sequence.
-/

abbrev Str := List Char

/-- JS `String.prototype.includes`: is `needle` a contiguous substring of the
string? -/
def hasSub (needle : Str) : Str → Bool
  | [] => needle.isEmpty
  | c :: rest => needle.isPrefixOf (c :: rest) || hasSub needle rest

/-- JS `String.prototype.split(sep)` for a non-empty separator, written with
explicit structural fuel so that it evaluates inside the kernel.  With
`fuel ≥ s.length` it scans left to right, cutting at each leftmost,
non-overlapping occurrence of `sep`. -/
def jsSplitAux (sep : Str) : Nat → Str → List Str
  | _, [] => [[]]
  | 0, c :: rest => [c :: rest]
  | fuel + 1, c :: rest =>
    if sep.isPrefixOf (c :: rest) ∧ sep ≠ [] then
      [] :: jsSplitAux sep fuel (List.drop (sep.length - 1) rest)
    else
      match jsSplitAux sep fuel rest with
      | [] => [[c]]
      | p :: ps => (c :: p) :: ps

/-- JS `s.split(sep)`. -/
def jsSplit (sep s : Str) : List Str := jsSplitAux sep s.length s

/-- JS `const i = s.lastIndexOf('.'); if (i !== -1) s = s.substring(0, i)`:
cut the string at its last `'.'`, keeping what comes before it. -/
def cutAfterLastDot (s : Str) : Str :=
  if '.' ∈ s then ((s.reverse.dropWhile (fun c => c != '.')).tail).reverse
  else s

/-- JS `s.replace(/^v\d+\//, '')`: remove a leading `v<digits>/` segment
when present. -/
def stripVersionSeg (s : Str) : Str :=
  match s with
  | 'v' :: rest =>
    let ds := rest.takeWhile Char.isDigit
    match rest.drop ds.length with
    | '/' :: tail => if ds.isEmpty then s else tail
    | _ => s
  | _ => s

/-- JS `String.prototype.trim`. -/
def jsTrim (s : Str) : Str :=
  ((s.dropWhile Char.isWhitespace).reverse.dropWhile Char.isWhitespace).reverse

/-- The tag-string transform shared by the upload and rename handlers:
`str.split(",").map(t => t.trim()).filter(t => t.length > 0).slice(0, 10)`. -/
def parseTags (s : Str) : List Str :=
  (((jsSplit [','] s).map jsTrim).filter (fun t => !t.isEmpty)).take 10

/-- Result of `extractCloudinaryPublicId` (`server/routes.ts`):
`null`, a thrown `Error`, or the extracted public id. -/
inductive ExtractResult : Type where
  | notCloudinary : ExtractResult
  | malformed : ExtractResult
  | ok : Str → ExtractResult
deriving DecidableEq, Repr

/-- The provider host marker tested by `imageUrl.includes("cloudinary.com")`. -/
def cloudMarker : Str := "cloudinary.com".data

/-- The upload-path marker `'/upload/'`. -/
def uploadMarker : Str := "/upload/".data

/-- `extractCloudinaryPublicId` from `server/routes.ts` lines 63–88:
return `null` unless the URL mentions `cloudinary.com`; split on
`'/upload/'` requiring exactly two parts (else throw); drop the file
extension after the last dot; drop a leading `v<digits>/` version segment;
throw if the remainder is empty or whitespace. -/
def extractCloudinaryPublicId (imageUrl : Str) : ExtractResult :=
  if hasSub cloudMarker imageUrl = false then .notCloudinary
  else
    match jsSplit uploadMarker imageUrl with
    | [_, second] =>
      let dotCut := cutAfterLastDot second
      let pid := stripVersionSeg dotCut
      if pid.isEmpty || (jsTrim pid).isEmpty then .malformed else .ok pid
    | _ => .malformed

example :
    extractCloudinaryPublicId
      "https://res.cloudinary.com/demo/image/upload/v1234567890/memes/abc123.jpg".data
      = .ok "memes/abc123".data := by decide

example :
    extractCloudinaryPublicId "https://example.com/pictures/abc123.jpg".data
      = .notCloudinary := by decide

example :
    extractCloudinaryPublicId "https://res.cloudinary.com/demo/image/fetch/abc.jpg".data
      = .malformed := by decide

example : parseTags " cat , dog ,,fun ".data = ["cat".data, "dog".data, "fun".data] := by
  decide

/-! ## Data model

The Meme document, following the enhanced Mongoose `MemeSchema` of
`server/storage.ts`: the moderation and edit-tracking fields default to
`0` / `null` / `[]` / `false`, which also models the in-memory records
(whose literal objects simply omit those fields). -/

structure EditHistoryEntry where
  previousName : Str
  previousTags : List Str
  editedAt : Nat
deriving DecidableEq, Repr

structure Meme where
  id : Str
  title : Str
  tags : List Str
  imageUrl : Str
  createdAt : Nat
  editedByUsers : Nat := 0
  lastEditedAt : Option Nat := none
  editHistory : List EditHistoryEntry := []
  isLocked : Bool := false
  isFeatured : Bool := false
deriving DecidableEq, Repr

/-- The `{ id }` query predicate used by every store operation. -/
def byId (id : Str) (m : Meme) : Bool := decide (m.id = id)

/-- `findOne({ id })` over the document sequence. -/
def findMeme (s : List Meme) (id : Str) : Option Meme := s.find? (byId id)

/-- Replace the documents matching `id` by `m'` (the effect of a
`findOneAndUpdate`/`updateOne` write on the matching document). -/
def updateById (s : List Meme) (id : Str) (m' : Meme) : List Meme :=
  s.map (fun x => if byId id x then m' else x)

/-! ## Record store: the two backends -/

/-- Outcome of `editMeme`: `undefined`, the thrown locked `Error`, or the
updated document. -/
inductive EditResult : Type where
  | notFound : EditResult
  | locked : EditResult
  | ok : Meme → EditResult
deriving DecidableEq, Repr

/-- `MongoStorage.editMeme` (storage.ts lines 256–302): `findOne`, throw if
`isLocked`, else snapshot `{previousName, previousTags, editedAt}` and
`findOneAndUpdate` with `$set` of the new title/tags/`lastEditedAt`,
`$inc editedByUsers`, `$push` onto `editHistory`. -/
def mongoEditMeme (s : List Meme) (id newName : Str) (newTags : List Str)
    (now : Nat) : List Meme × EditResult :=
  match findMeme s id with
  | none => (s, .notFound)
  | some m =>
    if m.isLocked then (s, .locked)
    else
      let entry : EditHistoryEntry := ⟨m.title, m.tags, now⟩
      let m' : Meme :=
        { m with
          title := newName, tags := newTags, lastEditedAt := some now,
          editedByUsers := m.editedByUsers + 1,
          editHistory := m.editHistory ++ [entry] }
      (updateById s id m', .ok m')

/-- `MemStorage.editMeme` (storage.ts lines 454–460): look the record up in
the map and overwrite title and tags.  There is no lock check and no
counter/history maintenance. -/
def memEditMeme (s : List Meme) (id newName : Str) (newTags : List Str) :
    List Meme × Option Meme :=
  match findMeme s id with
  | none => (s, none)
  | some m =>
    let m' : Meme := { m with title := newName, tags := newTags }
    (updateById s id m', some m')

/-- `MongoStorage.lockMeme` (storage.ts lines 305–313): `updateOne` with
`$set { isLocked }`, returning `modifiedCount > 0` — MongoDB counts a
document as modified only when its stored value actually changed. -/
def mongoLockMeme (s : List Meme) (id : Str) (v : Bool) : List Meme × Bool :=
  match findMeme s id with
  | none => (s, false)
  | some m => (updateById s id { m with isLocked := v }, m.isLocked != v)

/-- `MongoStorage.featureMeme` (storage.ts lines 315–323), same shape. -/
def mongoFeatureMeme (s : List Meme) (id : Str) (v : Bool) : List Meme × Bool :=
  match findMeme s id with
  | none => (s, false)
  | some m => (updateById s id { m with isFeatured := v }, m.isFeatured != v)

/-- `MemStorage.lockMeme` (storage.ts lines 462–467): `true` whenever the
record exists. -/
def memLockMeme (s : List Meme) (id : Str) (v : Bool) : List Meme × Bool :=
  match findMeme s id with
  | none => (s, false)
  | some m => (updateById s id { m with isLocked := v }, true)

/-- `MemStorage.featureMeme` (storage.ts lines 469–474). -/
def memFeatureMeme (s : List Meme) (id : Str) (v : Bool) : List Meme × Bool :=
  match findMeme s id with
  | none => (s, false)
  | some m => (updateById s id { m with isFeatured := v }, true)

/-- `deleteOne({ id })` / `Map.delete`: remove the matching document,
report whether one existed (`deletedCount > 0`).  Both backends share this
shape. -/
def deleteMemeOp (s : List Meme) (id : Str) : List Meme × Bool :=
  (s.eraseP (byId id), s.any (byId id))

/-- `renameMeme` (both backends, storage.ts lines 227–253 and 442–448):
set title and imageUrl, set tags only when supplied. -/
def renameMemeOp (s : List Meme) (id newTitle newImageUrl : Str)
    (newTags : Option (List Str)) : List Meme × Option Meme :=
  match findMeme s id with
  | none => (s, none)
  | some m =>
    let m' : Meme :=
      { m with title := newTitle, imageUrl := newImageUrl,
               tags := newTags.getD m.tags }
    (updateById s id m', some m')

/-- `createMeme` (both backends): assign a fresh id and `createdAt`, keep
the supplied title/tags/imageUrl, initialize the tracking fields. -/
def createMemeOp (s : List Meme) (title : Str) (tags : List Str)
    (imageUrl : Str) (newId : Str) (now : Nat) : List Meme × Meme :=
  let m : Meme := { id := newId, title := title, tags := tags,
                    imageUrl := imageUrl, createdAt := now }
  (s ++ [m], m)

/-! ## Listing: filter, sort, paginate -/

inductive SortBy : Type where
  | recent : SortBy
  | popular : SortBy
  | featured : SortBy
deriving DecidableEq, Repr

structure GetOptions where
  search : Option Str := none
  limit : Option Nat := none
  offset : Option Nat := none
  sortBy : Option SortBy := none
deriving DecidableEq, Repr

def lowerStr (s : Str) : Str := s.map Char.toLower

/-- One record matches the search term: case-insensitively, the term occurs
as a substring of the title or of some tag.  This is the in-memory backend's
`toLowerCase().includes()` test verbatim. -/
def ciMatches (q : Str) (m : Meme) : Bool :=
  hasSub (lowerStr q) (lowerStr m.title)
    || m.tags.any (fun t => hasSub (lowerStr q) (lowerStr t))

/-- `if (search) { ... }`: the filter is applied only for a truthy (hence
non-empty) search string — identical in both backends. -/
def searchFilter (search : Option Str) (s : List Meme) : List Meme :=
  match search with
  | none => s
  | some q => if q.isEmpty then s else s.filter (ciMatches q)

/-- Characters with special meaning in a JS regular-expression pattern
(conservatively including the escape and grouping characters).  A search
string avoiding all of them denotes a literal-text pattern, is always a
valid pattern, and `RegExp(q, 'i')` then matches a string exactly when `q`
occurs in it case-insensitively. -/
def regexMetaChars : Str := "\\^$.|?*+()[]\x7b\x7d".data

/-- The search pattern is free of regexp metacharacters. -/
def literalPattern (q : Str) : Bool :=
  q.all (fun c => decide (c ∉ regexMetaChars))

/-- The Mongo backend's `$or` search test (part_009 lines 115–121):
`title: { $regex: search, $options: 'i' }` or some tag matching
`new RegExp(search, 'i')`.  The regex-match semantics is a parameter `rx`
(JS regexes are not re-implemented here): every theorem about
`MongoStorage.getMemes` quantifies over `rx` and assumes only that it
agrees with case-insensitive substring containment on metacharacter-free
patterns, which the real `RegExp` satisfies.  The code's catch-all error
path (an invalid pattern throws, so `getMemes` returns `[]`) is itself an
instance: `rx` constantly false yields the empty result. -/
def mongoMatchesRx (rx : Str → Str → Bool) (q : Str) (m : Meme) : Bool :=
  rx q m.title || m.tags.any (fun t => rx q t)

/-- The Mongo backend's `if (search)` filter, under matcher `rx`. -/
def mongoSearchFilterRx (rx : Str → Str → Bool) (search : Option Str)
    (s : List Meme) : List Meme :=
  match search with
  | none => s
  | some q => if q.isEmpty then s else s.filter (mongoMatchesRx rx q)

/-- Case-insensitive literal substring containment: what `RegExp(q, 'i')`
matching amounts to on a metacharacter-free pattern `q`.  Used to
instantiate `rx` for concrete evaluation. -/
def regexLiteralSub (q t : Str) : Bool := hasSub (lowerStr q) (lowerStr t)

/-- Stable insertion step: `x` is placed before the first element it
compares `le` to, so earlier elements precede equal later ones. -/
def sInsert (le : Meme → Meme → Bool) (x : Meme) : List Meme → List Meme
  | [] => [x]
  | y :: ys => if le x y then x :: y :: ys else y :: sInsert le x ys

/-- Stable sort of the document sequence by the comparator `le`. -/
def sSort (le : Meme → Meme → Bool) : List Meme → List Meme
  | [] => []
  | x :: xs => sInsert le x (sSort le xs)

/-- `{ createdAt: -1 }`: newest first. -/
def recentLe (a b : Meme) : Bool := decide (b.createdAt ≤ a.createdAt)

/-- `{ editedByUsers: -1, createdAt: -1 }`. -/
def popularLe (a b : Meme) : Bool :=
  decide (b.editedByUsers < a.editedByUsers)
    || (decide (b.editedByUsers = a.editedByUsers)
        && decide (b.createdAt ≤ a.createdAt))

/-- `{ isFeatured: -1, createdAt: -1 }`. -/
def featuredLe (a b : Meme) : Bool :=
  (a.isFeatured && !b.isFeatured)
    || ((a.isFeatured == b.isFeatured) && decide (b.createdAt ≤ a.createdAt))

def sortFor : SortBy → Meme → Meme → Bool
  | .recent => recentLe
  | .popular => popularLe
  | .featured => featuredLe

/-- `MongoStorage.getMemes` (storage.ts lines 110–154), parameterized by
the regex-match semantics `rx`: defaults `limit = 10000`, `offset = 0`,
`sortBy = 'recent'`; filter, sort by the selected key, then
`.skip(offset).limit(limit)` — where MongoDB treats `.limit(0)` as *no*
limit. -/
def mongoGetMemesRx (rx : Str → Str → Bool) (s : List Meme)
    (o : GetOptions) : List Meme :=
  let lim := o.limit.getD 10000
  let off := o.offset.getD 0
  let sb := o.sortBy.getD .recent
  let paged := (sSort (sortFor sb) (mongoSearchFilterRx rx o.search s)).drop off
  if lim = 0 then paged else paged.take lim

/-- `MongoStorage.getMemes` with the regex matcher instantiated to literal
case-insensitive containment — the faithful instance for metacharacter-free
search patterns, and the instance used for concrete evaluation. -/
def mongoGetMemes (s : List Meme) (o : GetOptions) : List Meme :=
  mongoGetMemesRx regexLiteralSub s o

/-- `MemStorage.getMemes` (storage.ts lines 406–424): defaults
`limit = 20`, `offset = 0`; no `sortBy` option at all — always sorts by
`createdAt` descending; then `slice(offset, offset + limit)`. -/
def memGetMemes (s : List Meme) (o : GetOptions) : List Meme :=
  let lim := o.limit.getD 20
  let off := o.offset.getD 0
  (((sSort recentLe (searchFilter o.search s)).drop off).take lim)

/-! ## Sequences of community edits (for the ledger claims) -/

structure EditCall where
  newName : Str
  newTags : List Str
  time : Nat
deriving DecidableEq, Repr

/-- Run a sequence of `MongoStorage.editMeme` calls, collecting results. -/
def mongoEditSeq (s : List Meme) (id : Str) :
    List EditCall → List Meme × List EditResult
  | [] => (s, [])
  | e :: rest =>
    let p := mongoEditMeme s id e.newName e.newTags e.time
    let q := mongoEditSeq p.1 id rest
    (q.1, p.2 :: q.2)

/-- The history entries a sequence of edits must append: entry `k` snapshots
the title/tags exactly as they were immediately before call `k+1`. -/
def expectedHistory (title : Str) (tags : List Str) :
    List EditCall → List EditHistoryEntry
  | [] => []
  | e :: rest => ⟨title, tags, e.time⟩ :: expectedHistory e.newName e.newTags rest

/-! ## Media-lifecycle coordinator: the route handlers

Each handler is modelled as a function from its request data (plus oracles
for the outcomes of the external Cloudinary client and of fallible database
writes) to the ordered trace of asset-store/record-store operations it
performs, its HTTP response, and the resulting store state.  The multer
middleware uploads the request's file to Cloudinary before the handler body
runs, so a present file contributes an upload event at the head of the
trace. -/

/-- What the Cloudinary client reports for an `uploader.destroy` call. -/
inductive DestroyOutcome : Type where
  | ok : DestroyOutcome
  | notFound : DestroyOutcome
  | error : DestroyOutcome
  | throws : DestroyOutcome
deriving DecidableEq, Repr

/-- Events at the asset-store / record-store boundary, in program order. -/
inductive Ev : Type where
  | uploadAsset (url publicId : Str) : Ev
  | destroyAsset (publicId : Str) (outcome : DestroyOutcome) : Ev
  | renameRecord (id title imageUrl : Str) (tags : List Str) : Ev
  | deleteRecord (id : Str) : Ev
  | createRecord (title : Str) (tags : List Str) (imageUrl : Str) : Ev
deriving DecidableEq, Repr

inductive RenameResponse : Type where
  | notFound : RenameResponse
  | validationFailed : RenameResponse
  | okResp : Meme → RenameResponse
  | serverError : RenameResponse
deriving DecidableEq, Repr

/-- zod `z.string().min(1).max(200)` on a title (the same bodySchema check
appears in the upload and the rename handlers). -/
def validTitle (t : Str) : Bool := !t.isEmpty && decide (t.length ≤ 200)

/-- The rename handler's tag fallback: parse the supplied tag string, or
keep the record's current tags when none was supplied. -/
def renameTags (m : Meme) (tagsStr : Option Str) : List Str :=
  match tagsStr with
  | none => m.tags
  | some t => parseTags t

/-- `PATCH /api/memes/:id/rename` (routes.ts lines 553–625).  The multer
middleware uploads the new file (if any) before the handler body.  The
handler looks the meme up (404 if absent), then zod-validates the body —
an invalid title (empty or over 200 chars) throws into the catch block,
which destroys the *new* upload (if any) and responds 400: the old asset
is untouched and `renameMeme` is never called.  With a valid title and a
new file it immediately tries to delete the old Cloudinary asset (id
extracted from the *old* `imageUrl`; a `null` extraction skips, a thrown
extraction or destroy error is caught and ignored); then it calls
`renameMeme` with the new title, image URL and parsed tags.  `newFile` is
the multer upload `(url, publicId)`. -/
def renameHandler (s : List Meme) (id title : Str) (tagsStr : Option Str)
    (newFile : Option (Str × Str)) (destroyOut cleanupOut : DestroyOutcome) :
    List Ev × RenameResponse × List Meme :=
  let upEvs : List Ev :=
    match newFile with
    | none => []
    | some f => [.uploadAsset f.1 f.2]
  match findMeme s id with
  | none => (upEvs, .notFound, s)
  | some meme =>
    if !validTitle title then
      match newFile with
      | none => (upEvs, .validationFailed, s)
      | some f => (upEvs ++ [.destroyAsset f.2 cleanupOut], .validationFailed, s)
    else
      let destroyEvs : List Ev :=
        match newFile with
        | none => []
        | some _ =>
          match extractCloudinaryPublicId meme.imageUrl with
          | .ok pid => [.destroyAsset pid destroyOut]
          | _ => []
      let newImageUrl : Str :=
        match newFile with
        | none => meme.imageUrl
        | some f => f.1
      let tagsArr : List Str := renameTags meme tagsStr
      let r := renameMemeOp s id title newImageUrl (some tagsArr)
      match r.2 with
      | none =>
        (upEvs ++ destroyEvs ++ [.renameRecord id title newImageUrl tagsArr],
         .serverError, r.1)
      | some m' =>
        (upEvs ++ destroyEvs ++ [.renameRecord id title newImageUrl tagsArr],
         .okResp m', r.1)

example :
    renameHandler
        [{ id := "i".data, title := "t".data, tags := [],
           imageUrl := "u".data, createdAt := 0 }] "i".data [] none
        (some ("newurl".data, "memes/new1".data)) .ok .ok =
      ([.uploadAsset "newurl".data "memes/new1".data,
        .destroyAsset "memes/new1".data .ok],
       .validationFailed,
       [{ id := "i".data, title := "t".data, tags := [],
          imageUrl := "u".data, createdAt := 0 }]) := by
  decide

inductive DelResponse : Type where
  | notFound : DelResponse
  | okResp : Bool → Bool → DelResponse
  | serverError : DelResponse
deriving DecidableEq, Repr

/-- `DELETE /api/memes/:id` (routes.ts lines 316–381).  Look the meme up
(404 if absent); try Cloudinary deletion first — `result === 'ok'` and
`result === 'not found'` both count as deleted, other results and thrown
errors leave `cloudinaryDeleted = false`, a `null` extraction counts as
deleted, a throwing extraction is caught leaving `false`; then delete the
record (`recordDbFails` injects a database failure, which `deleteMeme`
catches into `false`); a failed record deletion is a 500, otherwise respond
`{ cloudinaryDeleted, mongoDeleted: true }`. -/
def deleteHandler (s : List Meme) (id : Str) (destroyOut : DestroyOutcome)
    (recordDbFails : Bool) : List Ev × DelResponse × List Meme :=
  match findMeme s id with
  | none => ([], .notFound, s)
  | some meme =>
    let p : List Ev × Bool :=
      match extractCloudinaryPublicId meme.imageUrl with
      | .ok pid =>
        ([.destroyAsset pid destroyOut],
         match destroyOut with
         | .ok => true
         | .notFound => true
         | .error => false
         | .throws => false)
      | .notCloudinary => ([], true)
      | .malformed => ([], false)
    let d := if recordDbFails then (s, false) else deleteMemeOp s id
    if d.2 then (p.1 ++ [.deleteRecord id], .okResp p.2 true, d.1)
    else (p.1 ++ [.deleteRecord id], .serverError, d.1)

inductive CreateResponse : Type where
  | badRequest : CreateResponse
  | validationFailed : CreateResponse
  | created : Meme → CreateResponse
  | serverError : CreateResponse
deriving DecidableEq, Repr

/-- `POST /api/memes` (routes.ts lines 267–313).  The multer middleware has
already uploaded the file (absent file: 400, nothing uploaded); a zod
validation failure or a throwing `createMeme` lands in the catch block,
which destroys the just-uploaded asset by its `public_id` before responding;
otherwise the record is created from the upload's URL. -/
def createHandler (s : List Meme) (file : Option (Str × Str))
    (title tagsStr : Str) (createFails : Bool)
    (cleanupOut : DestroyOutcome) (newId : Str) (now : Nat) :
    List Ev × CreateResponse × List Meme :=
  match file with
  | none => ([], .badRequest, s)
  | some f =>
    let up : List Ev := [.uploadAsset f.1 f.2]
    if !validTitle title then
      (up ++ [.destroyAsset f.2 cleanupOut], .validationFailed, s)
    else if createFails then
      (up ++ [.createRecord title (parseTags tagsStr) f.1,
              .destroyAsset f.2 cleanupOut],
       .serverError, s)
    else
      let c := createMemeOp s title (parseTags tagsStr) f.1 newId now
      (up ++ [.createRecord title (parseTags tagsStr) f.1], .created c.2, c.1)

/-- The query-string parameters `GET /api/memes` accepts (all strings). -/
structure ListQuery where
  search : Option Str := none
  limit : Option Str := none
  offset : Option Str := none
deriving DecidableEq, Repr

/-- `GET /api/memes` (routes.ts lines 213–230) over the Mongo backend: the
zod schema parses `search`, `limit` and `offset`, but the handler passes
only `{ search }` to `getMemes`. -/
def listHandlerMongo (s : List Meme) (q : ListQuery) : List Meme :=
  mongoGetMemes s { search := q.search }

/-- The same handler over the in-memory backend. -/
def listHandlerMem (s : List Meme) (q : ListQuery) : List Meme :=
  memGetMemes s { search := q.search }

inductive ToggleResponse : Type where
  | okResp : ToggleResponse
  | notFound : ToggleResponse
deriving DecidableEq, Repr

/-- `PATCH /api/admin/memes/:id/lock` (routes.ts lines 475–503) over the
Mongo backend: 404 whenever `lockMeme` reports `false`. -/
def lockHandler (s : List Meme) (id : Str) (v : Bool) :
    ToggleResponse × List Meme :=
  let r := mongoLockMeme s id v
  (if r.2 then .okResp else .notFound, r.1)

/-- `PATCH /api/admin/memes/:id/feature` (routes.ts lines 506–534). -/
def featureHandler (s : List Meme) (id : Str) (v : Bool) :
    ToggleResponse × List Meme :=
  let r := mongoFeatureMeme s id v
  (if r.2 then .okResp else .notFound, r.1)

/-! ## Concrete fixtures used by witnesses and counterexamples -/

def exId : Str := "m1".data

def exLocked : Meme :=
  { id := exId, title := "old".data, tags := ["a".data],
    imageUrl := "https://res.cloudinary.com/demo/image/upload/v123/memes/old1.jpg".data,
    createdAt := 1, isLocked := true }

def exFresh : Meme :=
  { id := exId, title := "old".data, tags := ["a".data],
    imageUrl := "https://res.cloudinary.com/demo/image/upload/v123/memes/old1.jpg".data,
    createdAt := 1 }

def exPopA : Meme :=
  { id := "a".data, title := "ta".data, tags := [], imageUrl := "ua".data,
    createdAt := 1, editedByUsers := 5 }

def exPopB : Meme :=
  { id := "b".data, title := "tb".data, tags := [], imageUrl := "ub".data,
    createdAt := 2, editedByUsers := 0 }

/-! ## Helper lemmas -/

theorem findMeme_updateById {s : List Meme} {id : Str} {m : Meme}
    (m' : Meme) (hfind : findMeme s id = some m) (hid : m'.id = id) :
    findMeme (updateById s id m') id = some m' := by
  induction s with
  | nil => simp [findMeme] at hfind
  | cons x xs ih =>
    by_cases hx : byId id x = true
    · have hb : byId id m' = true := by simp [byId, hid]
      simp [findMeme, updateById, List.find?_cons_of_pos, hx, hb]
    · have hfind' : findMeme xs id = some m := by
        simpa [findMeme, List.find?_cons_of_neg, hx] using hfind
      simpa [findMeme, updateById, List.find?_cons_of_neg, hx] using ih hfind'

theorem byId_of_findMeme {s : List Meme} {id : Str} {m : Meme}
    (hfind : findMeme s id = some m) : m.id = id := by
  have h := List.find?_some hfind
  simpa [byId] using h

theorem any_byId_of_findMeme {s : List Meme} {id : Str} {m : Meme}
    (hfind : findMeme s id = some m) : s.any (byId id) = true := by
  have hm := List.mem_of_find?_eq_some hfind
  have hp := List.find?_some hfind
  exact List.any_eq_true.mpr ⟨m, hm, hp⟩

/-! ## String lemmas for the public-id extractor -/

theorem prefOfP {l₁ l₂ : Str} : l₁.isPrefixOf l₂ = true ↔ l₁ <+: l₂ :=
  List.isPrefixOf_iff_prefix

theorem memGetLastQ {l : Str} {a : Char} (h : l.getLast? = some a) : a ∈ l := by
  induction l with
  | nil => simp at h
  | cons x xs ih =>
    cases xs with
    | nil => simp at h; simp [h]
    | cons y ys =>
      rw [List.getLast?_cons_cons] at h
      exact List.mem_cons_of_mem x (ih h)

theorem lastOfSuffix {y l : Str} (h : y <:+ l) (hy : y ≠ []) :
    y.getLast? = l.getLast? := by
  obtain ⟨x, rfl⟩ := h
  exact (List.getLast?_append_of_ne_nil x hy).symm

theorem headOfPre {l z : Str} (h : l <+: z) (hl : l ≠ []) : z.head? = l.head? := by
  obtain ⟨t, rfl⟩ := h
  cases l with
  | nil => exact absurd rfl hl
  | cons a l => rfl

theorem infixConsIff {l₁ l₂ : Str} {a : Char} :
    l₁ <:+: a :: l₂ ↔ l₁ <+: a :: l₂ ∨ l₁ <:+: l₂ := by
  constructor
  · rintro ⟨s, t, h⟩
    cases s with
    | nil => exact Or.inl ⟨t, by simpa using h⟩
    | cons b s' =>
      simp only [List.cons_append, List.cons.injEq] at h
      exact Or.inr ⟨s', t, h.2⟩
  · rintro (⟨t, h⟩ | ⟨s, t, h⟩)
    · exact ⟨[], t, by simpa using h⟩
    · exact ⟨a :: s, t, by simp [h]⟩

theorem infixOfPreSuf {l₁ y l₂ : Str} (h1 : l₁ <+: y) (h2 : y <:+ l₂) :
    l₁ <:+: l₂ := by
  obtain ⟨t, rfl⟩ := h1
  obtain ⟨s, rfl⟩ := h2
  exact ⟨s, t, by simp⟩

theorem hasSub_iff (needle hay : Str) : hasSub needle hay = true ↔ needle <:+: hay := by
  induction hay with
  | nil =>
    simp only [hasSub, List.isEmpty_iff]
    constructor
    · rintro rfl; exact ⟨[], [], rfl⟩
    · rintro ⟨s, t, h⟩
      simp only [List.append_eq_nil] at h
      exact h.1.2
  | cons c rest ih =>
    simp only [hasSub, Bool.or_eq_true, ih, infixConsIff, prefOfP]

theorem occ_split {y a b : Str} (h : y <:+ a ++ b) :
    y <:+ b ∨ ∃ y', y' <:+ a ∧ y' ≠ [] ∧ y = y' ++ b := by
  obtain ⟨x, hx⟩ := h
  by_cases hlen : a.length ≤ x.length
  · left
    have h2 := congrArg (List.drop a.length) hx
    rw [List.drop_append_of_le_length hlen, List.drop_left] at h2
    exact ⟨x.drop a.length, h2⟩
  · right
    have hlt : x.length < a.length := Nat.lt_of_not_le hlen
    have hxa : x = a.take x.length := by
      have h2 := congrArg (List.take x.length) hx
      rw [List.take_left, List.take_append_of_le_length (Nat.le_of_lt hlt)] at h2
      exact h2
    have hy : y = a.drop x.length ++ b := by
      have h2 : a.take x.length ++ (a.drop x.length ++ b) =
          a.take x.length ++ y := by
        rw [← List.append_assoc, List.take_append_drop, ← hxa]
        exact hx.symm
      exact (List.append_cancel_left h2).symm
    refine ⟨a.drop x.length, ⟨a.take x.length, List.take_append_drop _ _⟩, ?_, hy⟩
    intro hnil
    have h3 := congrArg List.length hnil
    simp only [List.length_drop, List.length_nil] at h3
    omega

theorem long_pre_occ {sep y' b B : Str}
    (hP : sep.isPrefixOf (y' ++ b) = true) (hsuf : y' <:+ B)
    (hlen : sep.length ≤ y'.length) : sep <:+: B := by
  obtain ⟨t, ht⟩ := prefOfP.mp hP
  have hsp : sep = y'.take sep.length := by
    have h2 := congrArg (List.take sep.length) ht
    rw [List.take_left, List.take_append_of_le_length hlen] at h2
    exact h2
  have h2 : sep <+: y' := hsp ▸ List.take_prefix sep.length y'
  exact infixOfPreSuf h2 hsuf

theorem short_pre_split {sep y' b : Str}
    (hP : sep.isPrefixOf (y' ++ b) = true) (hlen : y'.length < sep.length) :
    sep.drop y'.length <+: b ∧ sep.drop y'.length ≠ [] := by
  obtain ⟨t, ht⟩ := prefOfP.mp hP
  have hy' : sep.take y'.length = y' := by
    have h2 := congrArg (List.take y'.length) ht
    rw [List.take_append_of_le_length (Nat.le_of_lt hlen), List.take_left] at h2
    exact h2
  constructor
  · have h2 : sep.take y'.length ++ (sep.drop y'.length ++ t) =
        sep.take y'.length ++ b := by
      rw [← List.append_assoc, List.take_append_drop, ht, hy']
    exact ⟨t, List.append_cancel_left h2⟩
  · intro hnil
    have h3 := congrArg List.length hnil
    simp only [List.length_drop, List.length_nil] at h3
    omega

theorem headSlashOfMarker {y : Str} (h : uploadMarker.isPrefixOf y = true) :
    y.head? = some '/' := by
  have h2 := headOfPre (prefOfP.mp h) (by decide)
  rw [h2]; rfl

theorem memHeadQ {y : Str} {a : Char} (h : y.head? = some a) : a ∈ y := by
  cases y with
  | nil => simp at h
  | cons b t => simp at h; simp [h]

theorem jsSplitAux_nilStr (sep : Str) (fuel : Nat) : jsSplitAux sep fuel [] = [[]] := by
  cases fuel <;> rfl

theorem jsSplitAux_no_occ (sep : Str) (fuel : Nat) :
    ∀ s : Str, (∀ y, y <:+ s → ¬ sep.isPrefixOf y = true) →
      jsSplitAux sep fuel s = [s] := by
  induction fuel with
  | zero => intro s _; cases s <;> rfl
  | succ f ih =>
    intro s hno
    cases s with
    | nil => rfl
    | cons c rest =>
      have hc : ¬ sep.isPrefixOf (c :: rest) = true := hno _ (List.suffix_refl _)
      have hrest : jsSplitAux sep f rest = [rest] :=
        ih rest (fun y hy => hno y (hy.trans (List.suffix_cons c rest)))
      simp [jsSplitAux, hc, hrest]

theorem jsSplitAux_designated (sep : Str) (hsep : sep ≠ []) (post : Str)
    (hpost : ∀ y, y <:+ post → ¬ sep.isPrefixOf y = true) :
    ∀ (pre : Str) (fuel : Nat), pre.length + 1 ≤ fuel →
      (∀ y, y ≠ [] → y <:+ pre → ¬ sep.isPrefixOf (y ++ (sep ++ post)) = true) →
      jsSplitAux sep fuel (pre ++ (sep ++ post)) = [pre, post] := by
  intro pre
  induction pre with
  | nil =>
    intro fuel hfuel _
    cases fuel with
    | zero => omega
    | succ f =>
      cases sep with
      | nil => exact absurd rfl hsep
      | cons c sep' =>
        have hpref : (c :: sep').isPrefixOf ((c :: sep') ++ post) = true :=
          prefOfP.mpr ⟨post, rfl⟩
        have hdrop : List.drop ((c :: sep').length - 1) (sep' ++ post) = post := by
          simp only [List.length_cons, Nat.add_sub_cancel]
          exact List.drop_left sep' post
        have hrest : jsSplitAux (c :: sep') f post = [post] :=
          jsSplitAux_no_occ _ f post hpost
        simp [jsSplitAux, hpref, hdrop, hrest]
  | cons c pre' ih =>
    intro fuel hfuel hno
    cases fuel with
    | zero => simp only [List.length_cons] at hfuel; omega
    | succ f =>
      have hnc : ¬ sep.isPrefixOf ((c :: pre') ++ (sep ++ post)) = true :=
        hno (c :: pre') (by simp) (List.suffix_refl _)
      have hrec : jsSplitAux sep f (pre' ++ (sep ++ post)) = [pre', post] :=
        ih f (by simp only [List.length_cons] at hfuel; omega)
          (fun y hy hys => hno y hy (hys.trans (List.suffix_cons c pre')))
      simp only [List.cons_append] at hnc ⊢
      simp [jsSplitAux, hnc, hrec]

theorem dropWhile_append_all {p : Char → Bool} {l : Str} {x : Char} {t : Str}
    (hall : ∀ c ∈ l, p c = true) (hx : p x = false) :
    (l ++ x :: t).dropWhile p = x :: t := by
  induction l with
  | nil => simp [List.dropWhile_cons, hx]
  | cons a l ih =>
    have ha := hall a (List.mem_cons_self a l)
    simp only [List.cons_append, List.dropWhile_cons, ha, if_true]
    exact ih (fun c hc => hall c (List.mem_cons_of_mem a hc))

theorem takeWhile_append_all {p : Char → Bool} {l : Str} {x : Char} {t : Str}
    (hall : ∀ c ∈ l, p c = true) (hx : p x = false) :
    (l ++ x :: t).takeWhile p = l := by
  induction l with
  | nil => simp [List.takeWhile_cons, hx]
  | cons a l ih =>
    have ha := hall a (List.mem_cons_self a l)
    simp only [List.cons_append, List.takeWhile_cons, ha, if_true]
    rw [ih (fun c hc => hall c (List.mem_cons_of_mem a hc))]

theorem cutAfterLastDot_append (base ext : Str) (hext : '.' ∉ ext) :
    cutAfterLastDot (base ++ '.' :: ext) = base := by
  have hmem : '.' ∈ base ++ '.' :: ext := by simp
  rw [cutAfterLastDot, if_pos hmem, List.reverse_append, List.reverse_cons]
  have hall : ∀ c ∈ ext.reverse, (c != '.') = true := by
    intro c hc
    have : c ∈ ext := List.mem_reverse.mp hc
    simp only [bne_iff_ne, ne_eq]
    intro hcd; subst hcd; exact hext this
  have hstep : ext.reverse ++ ['.'] ++ base.reverse =
      ext.reverse ++ '.' :: base.reverse := by simp
  rw [hstep, dropWhile_append_all hall (by decide)]
  simp

theorem stripVersionSeg_v (digits R : Str) (h1 : digits ≠ [])
    (h2 : ∀ c ∈ digits, c.isDigit = true) :
    stripVersionSeg ('v' :: (digits ++ '/' :: R)) = R := by
  have htake : (digits ++ '/' :: R).takeWhile Char.isDigit = digits :=
    takeWhile_append_all h2 (by decide)
  have hdrop : (digits ++ '/' :: R).drop digits.length = '/' :: R :=
    List.drop_left _ _
  have hne : digits.isEmpty = false := by
    cases digits with
    | nil => exact absurd rfl h1
    | cons a l => rfl
  simp [stripVersionSeg, htake, hdrop, hne]

theorem jsTrim_ne_nil {s : Str} (c : Char) (hc : c ∈ s)
    (hw : c.isWhitespace = false) : jsTrim s ≠ [] := by
  intro h
  rw [jsTrim, List.reverse_eq_nil_iff] at h
  have h2 := List.dropWhile_eq_nil_iff.mp h
  have hc2 : c ∈ s.dropWhile Char.isWhitespace := by
    have hsplit := List.takeWhile_append_dropWhile Char.isWhitespace s
    rw [← hsplit] at hc
    rcases List.mem_append.mp hc with h3 | h3
    · have h4 := List.mem_takeWhile_imp h3
      rw [hw] at h4; cases h4
    · exact h3
  have h5 : c.isWhitespace = true :=
    h2 c (List.mem_reverse.mpr hc2)
  rw [hw] at h5; cases h5

/-- C1 (counterexample): the claim demands that for a locked record the
community edit fails with `Locked` and mutates nothing on *both* backends;
on the in-memory backend, editing a locked record instead succeeds (returns
the updated meme) and overwrites its title and tags. -/
theorem editLocked_bothBackends_cex :
    (memEditMeme [exLocked] exId "new".data [] ).2 =
      some { exLocked with title := "new".data, tags := [] } ∧
    (memEditMeme [exLocked] exId "new".data [] ).1 ≠ [exLocked] := by
  constructor
  · decide
  · decide

/-- C1 (amended): for a locked record, `MongoStorage.editMeme` fails with
the distinct locked error and leaves the store byte-identical, while
`MemStorage.editMeme` performs no lock check: it succeeds and overwrites the
record's title and tags (its counter and history, never maintained by this
backend, stay as they were). -/
theorem editLocked_mongo_rejects_mem_mutates
    (s : List Meme) (id newName : Str) (newTags : List Str) (now : Nat)
    (m : Meme) (hfind : findMeme s id = some m) (hlock : m.isLocked = true) :
    mongoEditMeme s id newName newTags now = (s, .locked) ∧
    memEditMeme s id newName newTags =
      (updateById s id { m with title := newName, tags := newTags },
       some { m with title := newName, tags := newTags }) := by
  constructor
  · simp [mongoEditMeme, hfind, hlock]
  · simp [memEditMeme, hfind]

/-- C1 witness: the amended theorem applied to a concrete locked store. -/
theorem editLocked_witness :
    mongoEditMeme [exLocked] exId "new".data [] 7 = ([exLocked], .locked) ∧
    memEditMeme [exLocked] exId "new".data [] =
      (updateById [exLocked] exId { exLocked with title := "new".data, tags := [] },
       some { exLocked with title := "new".data, tags := [] }) :=
  editLocked_mongo_rejects_mem_mutates [exLocked] exId "new".data [] 7 exLocked
    (by decide) (by decide)

/-- C3 (counterexample): the two backends do not return the same sequence
for every list query — for `sortBy = 'popular'` the Mongo backend orders by
edit count descending while the in-memory backend ignores `sortBy` and
orders by recency. -/
theorem getMemes_backends_differ_cex :
    mongoGetMemes [exPopA, exPopB] { sortBy := some .popular } ≠
      memGetMemes [exPopA, exPopB] { sortBy := some .popular } := by
  decide

/-- C3 (amended): the two backends agree on every query that supplies an
explicit *non-zero* `limit` and an explicit `offset`, requests the default
recency sort (or omits `sortBy`), and whose search term, if any, is free of
regexp metacharacters — stated for every regex-match semantics `rx` that
agrees with case-insensitive substring containment on such literal
patterns, as JS `RegExp(q, 'i')` does.  They diverge on the omitted-limit
defaults (10000 vs 20), on an explicit `limit = 0` (no limit on MongoDB,
empty slice in memory), on `sortBy = 'popular' | 'featured'` (ignored by
the in-memory backend), and may diverge on metacharacter search
patterns. -/
theorem getMemes_backends_agree_explicit
    (rx : Str → Str → Bool) (s : List Meme) (o : GetOptions) (l off : Nat)
    (hrx : ∀ q t, literalPattern q = true →
      rx q t = hasSub (lowerStr q) (lowerStr t))
    (hsearch : ∀ q, o.search = some q → literalPattern q = true)
    (hl : o.limit = some l) (hl0 : l ≠ 0) (ho : o.offset = some off)
    (hs : o.sortBy = none ∨ o.sortBy = some .recent) :
    mongoGetMemesRx rx s o = memGetMemes s o := by
  have hfilter : mongoSearchFilterRx rx o.search s = searchFilter o.search s := by
    cases hq : o.search with
    | none => rfl
    | some q =>
      by_cases hqe : q.isEmpty = true
      · simp [mongoSearchFilterRx, searchFilter, hqe]
      · have hrq : ∀ t, rx q t = hasSub (lowerStr q) (lowerStr t) :=
          fun t => hrx q t (hsearch q hq)
        simp only [mongoSearchFilterRx, searchFilter, hqe, if_false,
          Bool.false_eq_true]
        apply List.filter_congr
        intro m _
        simp [mongoMatchesRx, ciMatches, hrq]
  rcases hs with h | h <;>
    simp [mongoGetMemesRx, memGetMemes, hfilter, hl, hl0, ho, h, sortFor]

/-- C3 witness: concrete query with a literal search term, explicit
non-zero limit, explicit offset and default sort, on which the backends
agree under the literal-containment matcher. -/
theorem getMemes_backends_agree_witness :
    mongoGetMemesRx regexLiteralSub [exPopA, exPopB]
        { search := some "ta".data, limit := some 1, offset := some 0,
          sortBy := some .recent } =
      memGetMemes [exPopA, exPopB]
        { search := some "ta".data, limit := some 1, offset := some 0,
          sortBy := some .recent } :=
  getMemes_backends_agree_explicit regexLiteralSub [exPopA, exPopB]
    { search := some "ta".data, limit := some 1, offset := some 0,
      sortBy := some .recent } 1 0
    (fun _ _ _ => rfl)
    (fun q hq => by cases Option.some.inj hq; decide)
    rfl (by decide) rfl (Or.inr rfl)

/-- C9 (counterexample): re-asserting the current flag value on an existing
record is reported as `NotFound`: `lockMeme(id, true)` on an
already-locked record has `modifiedCount = 0`, so the admin lock route
answers 404 even though the record exists. -/
theorem lockExisting_notFound_cex :
    findMeme [exLocked] exId = some exLocked ∧
    (lockHandler [exLocked] exId true).1 = .notFound := by
  constructor
  · decide
  · decide

/-- C9 (amended): on the Mongo backend `lockMeme`/`featureMeme` report
success exactly when the record exists *and* the requested flag value
differs from the stored one (MongoDB's `modifiedCount` counts only real
changes), and the route maps a `false` report to 404; the in-memory backend
reports success exactly when the record exists. -/
theorem lockFeature_success_characterization
    (s : List Meme) (id : Str) (v : Bool) :
    ((mongoLockMeme s id v).2 = true ↔
      ∃ m, findMeme s id = some m ∧ m.isLocked ≠ v) ∧
    ((mongoFeatureMeme s id v).2 = true ↔
      ∃ m, findMeme s id = some m ∧ m.isFeatured ≠ v) ∧
    ((memLockMeme s id v).2 = true ↔ ∃ m, findMeme s id = some m) ∧
    ((memFeatureMeme s id v).2 = true ↔ ∃ m, findMeme s id = some m) ∧
    ((lockHandler s id v).1 = .notFound ↔ (mongoLockMeme s id v).2 = false) := by
  cases h : findMeme s id with
  | none =>
    simp [mongoLockMeme, mongoFeatureMeme, memLockMeme, memFeatureMeme,
          lockHandler, h]
  | some m =>
    refine ⟨?_, ?_, ?_, ?_, ?_⟩ <;>
      simp [mongoLockMeme, mongoFeatureMeme, memLockMeme, memFeatureMeme,
            lockHandler, h, bne_iff_ne]

theorem expectedHistory_length (title : Str) (tags : List Str)
    (edits : List EditCall) :
    (expectedHistory title tags edits).length = edits.length := by
  induction edits generalizing title tags with
  | nil => rfl
  | cons e rest ih => simp [expectedHistory, ih]

/-- Invariant of a sequence of `MongoStorage.editMeme` calls on an unlocked
record: every call succeeds, the counter advances by the number of calls
and the history grows by exactly the per-call snapshots. -/
theorem mongoEditSeq_spec (edits : List EditCall) :
    ∀ (s : List Meme) (id : Str) (m : Meme),
      findMeme s id = some m → m.isLocked = false →
      ∃ m', findMeme (mongoEditSeq s id edits).1 id = some m' ∧
        m'.id = m.id ∧ m'.isLocked = false ∧
        m'.editedByUsers = m.editedByUsers + edits.length ∧
        m'.editHistory = m.editHistory ++ expectedHistory m.title m.tags edits ∧
        (∀ r ∈ (mongoEditSeq s id edits).2, ∃ x, r = .ok x) := by
  induction edits with
  | nil =>
    intro s id m hfind hlock
    refine ⟨m, ?_, rfl, hlock, ?_, ?_, ?_⟩
    · simpa [mongoEditSeq] using hfind
    · simp [mongoEditSeq]
    · simp [expectedHistory]
    · simp [mongoEditSeq]
  | cons e rest ih =>
    intro s id m hfind hlock
    have hid : m.id = id := byId_of_findMeme hfind
    have hstep : mongoEditMeme s id e.newName e.newTags e.time =
        (updateById s id
          { m with title := e.newName, tags := e.newTags,
                   lastEditedAt := some e.time,
                   editedByUsers := m.editedByUsers + 1,
                   editHistory := m.editHistory ++ [⟨m.title, m.tags, e.time⟩] },
         .ok { m with title := e.newName, tags := e.newTags,
                      lastEditedAt := some e.time,
                      editedByUsers := m.editedByUsers + 1,
                      editHistory := m.editHistory ++ [⟨m.title, m.tags, e.time⟩] }) := by
      simp [mongoEditMeme, hfind, hlock]
    have hfind₁ :
        findMeme (updateById s id
          { m with title := e.newName, tags := e.newTags,
                   lastEditedAt := some e.time,
                   editedByUsers := m.editedByUsers + 1,
                   editHistory := m.editHistory ++ [⟨m.title, m.tags, e.time⟩] }) id =
        some { m with title := e.newName, tags := e.newTags,
                      lastEditedAt := some e.time,
                      editedByUsers := m.editedByUsers + 1,
                      editHistory := m.editHistory ++ [⟨m.title, m.tags, e.time⟩] } :=
      findMeme_updateById _ hfind hid
    obtain ⟨m', h1, h2, h3, h4, h5, h6⟩ := ih _ id _ hfind₁ hlock
    refine ⟨m', ?_, h2, h3, ?_, ?_, ?_⟩
    · simpa [mongoEditSeq, hstep] using h1
    · simp only [mongoEditSeq, hstep] at h4 ⊢
      simp only [List.length_cons] at h4 ⊢
      omega
    · simp only [mongoEditSeq, hstep] at h5 ⊢
      simp only [h5, expectedHistory]
      simp [List.append_assoc]
    · intro r hr
      simp only [mongoEditSeq, hstep, List.mem_cons] at hr
      rcases hr with h | h
      · exact ⟨_, h⟩
      · exact h6 r h

/-- C2 (amended, Mongo backend): starting from a fresh unlocked record,
every sequence of `N` `MongoStorage.editMeme` calls succeeds at each step,
ends with `editedByUsers = N` and `editHistory.length = N`, and the `k`-th
history entry snapshots the title/tags exactly as they were immediately
before call `k+1`.  (Applied to any shorter sequence of the same calls this
also gives the counter/history coupling at every intermediate point.)  The
in-memory backend violates the claim — see the counterexample. -/
theorem editSeq_counter_history_coupled
    (s : List Meme) (id : Str) (m : Meme) (edits : List EditCall)
    (hfind : findMeme s id = some m) (hunlocked : m.isLocked = false)
    (hcount : m.editedByUsers = 0) (hhist : m.editHistory = []) :
    (∀ r ∈ (mongoEditSeq s id edits).2, ∃ x, r = .ok x) ∧
    ∃ m', findMeme (mongoEditSeq s id edits).1 id = some m' ∧
      m'.editedByUsers = edits.length ∧
      m'.editHistory = expectedHistory m.title m.tags edits ∧
      m'.editHistory.length = edits.length := by
  obtain ⟨m', h1, _, _, h4, h5, h6⟩ := mongoEditSeq_spec edits s id m hfind hunlocked
  refine ⟨h6, m', h1, ?_, ?_, ?_⟩
  · simp [h4, hcount]
  · simp [h5, hhist]
  · simp [h5, hhist, expectedHistory_length]

/-- C2 witness: two concrete edits on a fresh record. -/
theorem editSeq_witness :
    (∀ r ∈ (mongoEditSeq [exFresh] exId
        [⟨"n1".data, [], 5⟩, ⟨"n2".data, ["x".data], 6⟩]).2, ∃ x, r = .ok x) ∧
    ∃ m', findMeme (mongoEditSeq [exFresh] exId
        [⟨"n1".data, [], 5⟩, ⟨"n2".data, ["x".data], 6⟩]).1 exId = some m' ∧
      m'.editedByUsers = ([⟨"n1".data, [], 5⟩,
        (⟨"n2".data, ["x".data], 6⟩ : EditCall)] : List EditCall).length ∧
      m'.editHistory = expectedHistory exFresh.title exFresh.tags
        [⟨"n1".data, [], 5⟩, ⟨"n2".data, ["x".data], 6⟩] ∧
      m'.editHistory.length = ([⟨"n1".data, [], 5⟩,
        (⟨"n2".data, ["x".data], 6⟩ : EditCall)] : List EditCall).length :=
  editSeq_counter_history_coupled [exFresh] exId exFresh
    [⟨"n1".data, [], 5⟩, ⟨"n2".data, ["x".data], 6⟩]
    (by decide) (by decide) (by decide) (by decide)

/-- C2 (counterexample): on the in-memory backend one successful edit
(`N = 1`) leaves `editedByUsers = 0` and `editHistory` empty, so the
claimed `editedByUsers == N` / `editHistory.length == N` coupling fails
there. -/
theorem editSeq_memCounter_cex :
    (memEditMeme [exFresh] exId "n".data []).2 =
      some { exFresh with title := "n".data, tags := [] } ∧
    ({ exFresh with title := "n".data, tags := [] } : Meme).editedByUsers = 0 ∧
    ({ exFresh with title := "n".data, tags := [] } : Meme).editHistory = [] := by
  refine ⟨by decide, by decide, by decide⟩

/-- C10: the public list endpoint parses `limit` and `offset` but never
forwards them: its result is unchanged under any requested limit/offset,
and equals the store's built-in defaults — limit 10000, offset 0 on the
Mongo backend, limit 20, offset 0 on the in-memory backend. -/
theorem listEndpoint_ignores_pagination
    (s : List Meme) (q : ListQuery) (lim off : Option Str) :
    listHandlerMongo s q = listHandlerMongo s { q with limit := lim, offset := off } ∧
    listHandlerMem s q = listHandlerMem s { q with limit := lim, offset := off } ∧
    listHandlerMongo s q =
      mongoGetMemes s { search := q.search, limit := some 10000,
                        offset := some 0, sortBy := some .recent } ∧
    listHandlerMem s q =
      memGetMemes s { search := q.search, limit := some 20, offset := some 0 } := by
  refine ⟨rfl, rfl, ?_, ?_⟩ <;>
    simp [listHandlerMongo, listHandlerMem, mongoGetMemes, mongoGetMemesRx,
          memGetMemes, sortFor]

/-- C6 (counterexample): renaming with a replacement asset deletes the old
Cloudinary asset *before* the record update — the trace runs upload, then
destroy-old, then the record write — contradicting the claimed
update-then-delete order. -/
theorem renameHandler_destroy_precedes_update_cex :
    (renameHandler [exFresh] exId "t2".data none
        (some ("newurl".data, "memes/new1".data)) .ok .ok).1 =
      [.uploadAsset "newurl".data "memes/new1".data,
       .destroyAsset "memes/old1".data .ok,
       .renameRecord exId "t2".data "newurl".data exFresh.tags] := by
  decide

/-- C6 (amended): in rename-with-replacement with a valid title (the zod
check that precedes this block — an invalid title instead destroys the new
upload, answers 400 and never touches the old asset or the record), the
order is upload the new asset (middleware), *delete the old asset* (by the
id the extractor derives from the old `imageUrl`), and only then update the
record; the response is the renamed record and the store is updated to the
new URL for every destroy outcome, so a failed old-asset deletion neither
fails the operation nor rolls the record back. -/
theorem renameHandler_upload_destroy_update
    (s : List Meme) (id title : Str) (tagsStr : Option Str) (f : Str × Str)
    (dOut cOut : DestroyOutcome) (m : Meme) (pid : Str)
    (hvalid : validTitle title = true)
    (hfind : findMeme s id = some m)
    (hex : extractCloudinaryPublicId m.imageUrl = .ok pid) :
    (renameHandler s id title tagsStr (some f) dOut cOut).1 =
      [.uploadAsset f.1 f.2, .destroyAsset pid dOut,
       .renameRecord id title f.1 (renameTags m tagsStr)] ∧
    (renameHandler s id title tagsStr (some f) dOut cOut).2.1 =
      .okResp { m with
                  title := title, imageUrl := f.1,
                  tags := renameTags m tagsStr } ∧
    (renameHandler s id title tagsStr (some f) dOut cOut).2.2 =
      updateById s id
        { m with
            title := title, imageUrl := f.1,
            tags := renameTags m tagsStr } := by
  refine ⟨?_, ?_, ?_⟩ <;> simp [renameHandler, hfind, hex, renameMemeOp, hvalid]

/-- C6 witness: the amended ordering on a concrete store, with a failing
old-asset deletion. -/
theorem renameHandler_order_witness :
    (renameHandler [exFresh] exId "t3".data none
        (some ("newurl".data, "memes/new1".data)) .throws .ok).1 =
      [.uploadAsset "newurl".data "memes/new1".data,
       .destroyAsset "memes/old1".data .throws,
       .renameRecord exId "t3".data "newurl".data (renameTags exFresh none)] ∧
    (renameHandler [exFresh] exId "t3".data none
        (some ("newurl".data, "memes/new1".data)) .throws .ok).2.1 =
      .okResp { exFresh with
                  title := "t3".data, imageUrl := "newurl".data,
                  tags := renameTags exFresh none } ∧
    (renameHandler [exFresh] exId "t3".data none
        (some ("newurl".data, "memes/new1".data)) .throws .ok).2.2 =
      updateById [exFresh] exId
        { exFresh with
            title := "t3".data, imageUrl := "newurl".data,
            tags := renameTags exFresh none } :=
  renameHandler_upload_destroy_update [exFresh] exId "t3".data none
    ("newurl".data, "memes/new1".data) .throws .ok exFresh "memes/old1".data
    (by decide) (by decide) (by decide)

/-- C7: the delete handler attempts asset deletion first (every event
before the record deletion is an asset destroy), treats the provider's
`'not found'` as deleted, reports the two outcomes as separate booleans,
and succeeds overall exactly when the record deletion succeeds — in
particular an already-gone asset still yields overall success with the
record-deleted flag `true`. -/
theorem deleteHandler_spec (s : List Meme) (id : Str) (m : Meme)
    (dOut : DestroyOutcome) (dbF : Bool)
    (hfind : findMeme s id = some m) :
    (∃ pre, (deleteHandler s id dOut dbF).1 = pre ++ [.deleteRecord id] ∧
       ∀ e ∈ pre, ∃ pid o, e = .destroyAsset pid o) ∧
    ((deleteHandler s id dOut dbF).2.1 = .serverError ↔ dbF = true) ∧
    ((∃ cd, (deleteHandler s id dOut dbF).2.1 = .okResp cd true) ↔ dbF = false) ∧
    (∀ pid, extractCloudinaryPublicId m.imageUrl = .ok pid → dOut = .notFound →
       dbF = false → (deleteHandler s id dOut dbF).2.1 = .okResp true true) := by
  have hany : s.any (byId id) = true := any_byId_of_findMeme hfind
  refine ⟨?_, ?_, ?_, ?_⟩
  · cases hex : extractCloudinaryPublicId m.imageUrl with
    | ok pid =>
      refine ⟨[.destroyAsset pid dOut], ?_, ?_⟩
      · cases dbF <;> simp [deleteHandler, hfind, hex, deleteMemeOp, hany]
      · intro e he
        simp only [List.mem_singleton] at he
        exact ⟨pid, dOut, he⟩
    | notCloudinary =>
      refine ⟨[], ?_, by intro e he; simp at he⟩
      cases dbF <;> simp [deleteHandler, hfind, hex, deleteMemeOp, hany]
    | malformed =>
      refine ⟨[], ?_, by intro e he; simp at he⟩
      cases dbF <;> simp [deleteHandler, hfind, hex, deleteMemeOp, hany]
  · cases dbF <;> cases hex : extractCloudinaryPublicId m.imageUrl <;>
      simp [deleteHandler, hfind, hex, deleteMemeOp, hany]
  · cases dbF <;> cases hex : extractCloudinaryPublicId m.imageUrl <;>
      simp [deleteHandler, hfind, hex, deleteMemeOp, hany]
  · intro pid hex hdo hdb
    subst hdo; subst hdb
    simp [deleteHandler, hfind, hex, deleteMemeOp, hany]

/-- C7 witness: deleting a record whose asset is already gone (provider
answers `'not found'`) on a concrete store. -/
theorem deleteHandler_witness :
    (∃ pre, (deleteHandler [exFresh] exId .notFound false).1 =
        pre ++ [.deleteRecord exId] ∧
       ∀ e ∈ pre, ∃ pid o, e = .destroyAsset pid o) ∧
    ((deleteHandler [exFresh] exId .notFound false).2.1 = .serverError ↔
      false = true) ∧
    ((∃ cd, (deleteHandler [exFresh] exId .notFound false).2.1 =
        .okResp cd true) ↔ false = false) ∧
    (∀ pid, extractCloudinaryPublicId exFresh.imageUrl = .ok pid →
       DestroyOutcome.notFound = .notFound → false = false →
       (deleteHandler [exFresh] exId .notFound false).2.1 = .okResp true true) :=
  deleteHandler_spec [exFresh] exId exFresh .notFound false (by decide)

/-- C8: in the create flow the asset upload (done by the middleware, which
alone knows the asset URL) heads the trace, the record — when created — is
created afterwards and points at the uploaded URL; and on every error path
after the upload (validation failure, record-creation failure) the handler
destroys the just-uploaded asset before responding. -/
theorem createHandler_upload_first_cleanup_on_error
    (s : List Meme) (f : Str × Str) (title tagsStr : Str)
    (createFails : Bool) (cOut : DestroyOutcome) (newId : Str) (now : Nat) :
    (∃ rest,
      (createHandler s (some f) title tagsStr createFails cOut newId now).1 =
        .uploadAsset f.1 f.2 :: rest) ∧
    (∀ m, (createHandler s (some f) title tagsStr createFails cOut newId now).2.1 =
        .created m → m.imageUrl = f.1 ∧ createFails = false) ∧
    (((createHandler s (some f) title tagsStr createFails cOut newId now).2.1 =
        .validationFailed ∨
      (createHandler s (some f) title tagsStr createFails cOut newId now).2.1 =
        .serverError) →
      .destroyAsset f.2 cOut ∈
        (createHandler s (some f) title tagsStr createFails cOut newId now).1) ∧
    (validTitle title = true → createFails = true →
      (createHandler s (some f) title tagsStr createFails cOut newId now).2.1 =
        .serverError) := by
  cases hv : validTitle title <;> cases createFails <;>
    simp [createHandler, hv, createMemeOp]

/-- C8 witness: a concrete failing record creation after a successful
upload. -/
theorem createHandler_witness :
    (∃ rest,
      (createHandler [] (some ("u1".data, "memes/p1".data)) "T".data "a,b".data
          true .ok "id9".data 3).1 =
        .uploadAsset "u1".data "memes/p1".data :: rest) ∧
    (∀ m, (createHandler [] (some ("u1".data, "memes/p1".data)) "T".data
        "a,b".data true .ok "id9".data 3).2.1 = .created m →
      m.imageUrl = "u1".data ∧ true = false) ∧
    (((createHandler [] (some ("u1".data, "memes/p1".data)) "T".data "a,b".data
        true .ok "id9".data 3).2.1 = .validationFailed ∨
      (createHandler [] (some ("u1".data, "memes/p1".data)) "T".data "a,b".data
        true .ok "id9".data 3).2.1 = .serverError) →
      .destroyAsset "memes/p1".data .ok ∈
        (createHandler [] (some ("u1".data, "memes/p1".data)) "T".data
          "a,b".data true .ok "id9".data 3).1) ∧
    (validTitle "T".data = true → true = true →
      (createHandler [] (some ("u1".data, "memes/p1".data)) "T".data "a,b".data
        true .ok "id9".data 3).2.1 = .serverError) :=
  createHandler_upload_first_cleanup_on_error [] ("u1".data, "memes/p1".data)
    "T".data "a,b".data true .ok "id9".data 3

theorem infixOfInfixPre {l₁ y l₂ : Str} (h1 : l₁ <:+: y) (h2 : y <+: l₂) :
    l₁ <:+: l₂ := by
  obtain ⟨s, t, rfl⟩ := h1
  obtain ⟨u, rfl⟩ := h2
  exact ⟨s, t ++ u, by simp⟩

/-- No occurrence of `'/upload/'` after the designated one: the rest of the
URL is `v<digits>/<folder>/<id>.<ext>`, whose only slash-delimited segments
are digits, the folder path and the id, none of which reintroduce the
marker. -/
theorem no_marker_in_post (digits folder ident ext : Str)
    (hdig : ∀ c ∈ digits, c.isDigit = true)
    (hfold : ¬ uploadMarker <:+: (('/' :: folder) ++ ('/' :: ident)))
    (hsle : '/' ∉ ext) :
    ∀ y, y <:+ (('v' :: digits) ++
        ((('/' :: folder) ++ ('/' :: ident)) ++ ('.' :: ext))) →
      ¬ uploadMarker.isPrefixOf y = true := by
  intro y hy hP
  rcases occ_split hy with h | ⟨y', hy', hne, rfl⟩
  · rcases occ_split h with h2 | ⟨y', hy', hne, rfl⟩
    · have hhd := headSlashOfMarker hP
      have hm : '/' ∈ y := memHeadQ hhd
      have h3 : '/' ∈ ('.' :: ext) := h2.subset hm
      rcases List.mem_cons.mp h3 with h4 | h4
      · exact absurd h4 (by decide)
      · exact hsle h4
    · by_cases hlen : uploadMarker.length ≤ y'.length
      · exact hfold (long_pre_occ hP hy' hlen)
      · obtain ⟨hs1, hs2⟩ := short_pre_split hP (Nat.lt_of_not_le hlen)
        have hh := headOfPre hs1 hs2
        have h9 : (uploadMarker.drop y'.length).head? = some '.' := by
          rw [← hh]; rfl
        have hdm : '.' ∈ uploadMarker := List.drop_subset _ _ (memHeadQ h9)
        revert hdm; decide
  · have hhd := headSlashOfMarker hP
    have h2 : y'.head? = some '/' := by
      cases y' with
      | nil => exact absurd rfl hne
      | cons a t => simpa using hhd
    have h3 : '/' ∈ ('v' :: digits) := hy'.subset (memHeadQ h2)
    rcases List.mem_cons.mp h3 with h4 | h4
    · exact absurd h4 (by decide)
    · exact absurd (hdig '/' h4) (by decide)

/-- No occurrence of `'/upload/'` starting inside the URL part before the
designated marker: a long-enough suffix would put the marker inside that
part, and a shorter one would have to end in the part's final `'e'`
(of `/image`), which the marker does not contain. -/
theorem no_marker_in_pre (cloud tailStr : Str)
    (hpre : ¬ uploadMarker <:+:
      ("https://res.cloudinary.com/".data ++ cloud ++ "/image".data)) :
    ∀ y, y ≠ [] →
      y <:+ ("https://res.cloudinary.com/".data ++ cloud ++ "/image".data) →
      ¬ uploadMarker.isPrefixOf (y ++ tailStr) = true := by
  intro y hne hy hP
  by_cases hlen : uploadMarker.length ≤ y.length
  · exact hpre (long_pre_occ hP hy hlen)
  · obtain ⟨t, ht⟩ := prefOfP.mp hP
    have hy_take : uploadMarker.take y.length = y := by
      have h2 := congrArg (List.take y.length) ht
      rw [List.take_append_of_le_length (Nat.le_of_lt (Nat.lt_of_not_le hlen)),
          List.take_left] at h2
      exact h2
    have hlast : y.getLast? = some 'e' := by
      rw [lastOfSuffix hy hne,
          List.getLast?_append_of_ne_nil
            ("https://res.cloudinary.com/".data ++ cloud) (by decide)]
      rfl
    have h6 : 'e' ∈ uploadMarker.take y.length := by
      rw [hy_take]; exact memGetLastQ hlast
    have h7 : 'e' ∈ uploadMarker := List.take_subset _ _ h6
    revert h7; decide

/-- When the host check passes and the split yields exactly two parts, the
extractor reduces to the extension-cut / version-strip / emptiness-check
pipeline on the second part. -/
theorem extract_eq_of_parts {url pre post : Str}
    (hsub : hasSub cloudMarker url = true)
    (hsplit : jsSplit uploadMarker url = [pre, post]) :
    extractCloudinaryPublicId url =
      (if (stripVersionSeg (cutAfterLastDot post)).isEmpty ||
          (jsTrim (stripVersionSeg (cutAfterLastDot post))).isEmpty then
        ExtractResult.malformed
      else ExtractResult.ok (stripVersionSeg (cutAfterLastDot post))) := by
  unfold extractCloudinaryPublicId
  rw [hsub, hsplit]
  rfl

/-- C4: for every provider-managed URL of the claimed shape
`https://<cdn host>/<cloud>/image/upload/v<digits>/<folder>/<id>.<ext>`
(with the CDN host `res.cloudinary.com`), where `<folder>/<id>` contains no
further dot and no further `'/upload/'` (nor does the part before the
marker), the extractor returns exactly `<folder>/<id>` — extension removed,
leading version segment removed, folder path preserved.  As a Lean function
the extractor is pure, so it trivially returns the same result on every
call with the same input. -/
theorem extractor_roundtrip (cloud digits folder ident ext : Str)
    (hdig1 : digits ≠ []) (hdig2 : ∀ c ∈ digits, c.isDigit = true)
    (hpre : ¬ uploadMarker <:+:
      ("https://res.cloudinary.com/".data ++ cloud ++ "/image".data))
    (hfold : ¬ uploadMarker <:+: (('/' :: folder) ++ ('/' :: ident)))
    (_hdotf : '.' ∉ folder) (_hdoti : '.' ∉ ident)
    (hdote : '.' ∉ ext) (hsle : '/' ∉ ext) :
    extractCloudinaryPublicId
      (("https://res.cloudinary.com/".data ++ cloud ++ "/image".data) ++
        (uploadMarker ++
          (('v' :: digits) ++
            ((('/' :: folder) ++ ('/' :: ident)) ++ ('.' :: ext))))) =
      .ok (folder ++ '/' :: ident) := by
  have hsplit : jsSplit uploadMarker
      (("https://res.cloudinary.com/".data ++ cloud ++ "/image".data) ++
        (uploadMarker ++
          (('v' :: digits) ++
            ((('/' :: folder) ++ ('/' :: ident)) ++ ('.' :: ext))))) =
      [("https://res.cloudinary.com/".data ++ cloud ++ "/image".data),
       (('v' :: digits) ++ ((('/' :: folder) ++ ('/' :: ident)) ++ ('.' :: ext)))] := by
    refine jsSplitAux_designated uploadMarker (by decide) _
      (no_marker_in_post digits folder ident ext hdig2 hfold hsle) _ _ ?_
      (no_marker_in_pre cloud _ hpre)
    have hm : uploadMarker.length = 8 := by decide
    simp only [List.length_append, hm]
    omega
  have h1 : cloudMarker <:+: "https://res.cloudinary.com/".data := by decide
  have h2 : "https://res.cloudinary.com/".data <+:
      (("https://res.cloudinary.com/".data ++ cloud ++ "/image".data) ++
        (uploadMarker ++
          (('v' :: digits) ++
            ((('/' :: folder) ++ ('/' :: ident)) ++ ('.' :: ext))))) :=
    ⟨cloud ++ ("/image".data ++
      (uploadMarker ++
        (('v' :: digits) ++
          ((('/' :: folder) ++ ('/' :: ident)) ++ ('.' :: ext))))),
      by simp [List.append_assoc]⟩
  have hsub := (hasSub_iff _ _).mpr (infixOfInfixPre h1 h2)
  have hpost_eq : ('v' :: digits) ++
      ((('/' :: folder) ++ ('/' :: ident)) ++ ('.' :: ext)) =
      (('v' :: digits) ++ (('/' :: folder) ++ ('/' :: ident))) ++ ('.' :: ext) := by
    simp [List.append_assoc]
  have hbase_eq : ('v' :: digits) ++ (('/' :: folder) ++ ('/' :: ident)) =
      'v' :: (digits ++ '/' :: (folder ++ '/' :: ident)) := by
    simp
  have hstrip : stripVersionSeg (cutAfterLastDot
      (('v' :: digits) ++ ((('/' :: folder) ++ ('/' :: ident)) ++ ('.' :: ext)))) =
      folder ++ '/' :: ident := by
    rw [hpost_eq, cutAfterLastDot_append _ _ hdote, hbase_eq]
    exact stripVersionSeg_v digits _ hdig1 hdig2
  have hne1 : (folder ++ '/' :: ident).isEmpty = false := by
    cases folder <;> rfl
  have hne2 : (jsTrim (folder ++ '/' :: ident)).isEmpty = false := by
    have h9 : jsTrim (folder ++ '/' :: ident) ≠ [] :=
      jsTrim_ne_nil '/' (by simp) (by decide)
    cases hcase : jsTrim (folder ++ '/' :: ident) with
    | nil => exact absurd hcase h9
    | cons a tl => rfl
  rw [extract_eq_of_parts hsub hsplit, hstrip, hne1, hne2]
  simp

/-- C4 witness: a concrete URL of the claimed shape. -/
theorem extractor_roundtrip_witness :
    extractCloudinaryPublicId
      (("https://res.cloudinary.com/".data ++ "demo".data ++ "/image".data) ++
        (uploadMarker ++
          (('v' :: "1234567890".data) ++
            ((('/' :: "memes".data) ++ ('/' :: "abc123".data)) ++
              ('.' :: "jpg".data))))) =
      .ok ("memes".data ++ '/' :: "abc123".data) :=
  extractor_roundtrip "demo".data "1234567890".data "memes".data "abc123".data
    "jpg".data (by decide) (by decide) (by decide) (by decide) (by decide)
    (by decide) (by decide) (by decide)

/-- C5 (counterexample): a URL containing the provider host name but
lacking the `'/upload/'` marker makes the extractor throw
(`MalformedProviderUrl`) rather than return the claimed
`NotProviderManaged` null. -/
theorem extractor_cloudhost_no_marker_cex :
    extractCloudinaryPublicId
        "https://res.cloudinary.com/demo/image/fetch/abc.jpg".data =
      .malformed ∧
    ExtractResult.malformed ≠ ExtractResult.notCloudinary :=
  ⟨by decide, by decide⟩

/-- C5 (amended): for every URL without the upload-path marker the
extractor returns `NotProviderManaged` (null) only when the URL also lacks
the provider host name `cloudinary.com`; when the host name is present but
the marker is missing, it raises `MalformedProviderUrl` instead. -/
theorem extractor_no_marker (url : Str) (h : ¬ uploadMarker <:+: url) :
    extractCloudinaryPublicId url =
      if cloudMarker <:+: url then .malformed else .notCloudinary := by
  have hno : ∀ y, y <:+ url → ¬ uploadMarker.isPrefixOf y = true := by
    intro y hy hP
    exact h (infixOfPreSuf (prefOfP.mp hP) hy)
  have hsplit : jsSplit uploadMarker url = [url] :=
    jsSplitAux_no_occ uploadMarker url.length url hno
  by_cases hc : cloudMarker <:+: url
  · have hsub : hasSub cloudMarker url = true := (hasSub_iff _ _).mpr hc
    simp [extractCloudinaryPublicId, hsub, hsplit, hc]
  · have hsub : hasSub cloudMarker url = false :=
      Bool.eq_false_iff.mpr (fun hh => hc ((hasSub_iff _ _).mp hh))
    simp [extractCloudinaryPublicId, hsub, hc]

/-- C5 witness: a third-party URL without the marker or the host name. -/
theorem extractor_no_marker_witness :
    extractCloudinaryPublicId "https://example.org/pics/abc.jpg".data =
      if cloudMarker <:+: "https://example.org/pics/abc.jpg".data then
        ExtractResult.malformed
      else ExtractResult.notCloudinary :=
  extractor_no_marker "https://example.org/pics/abc.jpg".data (by decide)
